import Mathlib

/-!
Shallow embedding of the dispenser orchestrator core (ixpantia/dispenser),
covering the route resolver, the IP allocator, the per-service polling
arbitration, the image watcher, the cron watcher, the container start/stop
error handling, and the proxy request filter.  Each definition mirrors one
function of the Rust source; theorems at the end settle the specification
claims against these definitions.

Machine integers are modelled as `Nat`/`Int`; IPv4 addresses as the `Nat`
value of their 32-bit big-endian encoding; Rust strings as `List Char`
(request paths are ASCII, so byte indexing coincides with char indexing);
`HashMap`/`HashSet` as association lists / membership lists, which is
faithful because the source only uses insert/lookup/contains.
-/

/-- Association-list lookup, mirroring `HashMap::get`: the first binding of
the key wins. -/
def lookupA {α β : Type} [DecidableEq α] : List (α × β) → α → Option β
  | [], _ => none
  | (k, v) :: rest, n => if k = n then some v else lookupA rest n

/-- Association-list insert, mirroring `HashMap::insert`: replaces the
existing binding of the key, otherwise appends. -/
def insertA {α β : Type} [DecidableEq α] : List (α × β) → α → β → List (α × β)
  | [], k, v => [(k, v)]
  | (k0, v0) :: rest, k, v =>
    if k0 = k then (k, v) :: rest else (k0, v0) :: insertA rest k v

/-- Set insert, mirroring `HashSet::insert` (idempotent). -/
def insertS (s : List Nat) (x : Nat) : List Nat :=
  if x ∈ s then s else x :: s

/-- `str::starts_with`: `s` starts with the pattern `pat`. -/
def listStartsWith : (s pat : List Char) → Bool
  | _, [] => true
  | [], _ :: _ => false
  | c :: cs, d :: ds => c = d && listStartsWith cs ds

/-- The `Nat` value of the 32-bit encoding of an IPv4 address, mirroring
`u32::from(Ipv4Addr::new(a, b, c, d))`. -/
def ipv4 (a b c d : Nat) : Nat := ((a * 256 + b) * 256 + c) * 256 + d

/-! ### Routing data model (src/service/manager.rs, src/service/instance.rs) -/

/-- `ProxySettings` from src/service/file.rs as used by the router: the
virtual host, the optional path, and the upstream container port. -/
structure ProxySettings where
  host : List Char
  path : Option (List Char)
  service_port : Nat
deriving DecidableEq, Repr

/-- The fields of `ServiceInstanceConfig` (src/service/instance.rs lines
30-43) that routing depends on: the optional proxy block and the
statically assigned IPv4 address. -/
structure ServiceInstanceConfig where
  proxy : Option ProxySettings
  assigned_ip : Nat
deriving DecidableEq, Repr

/-- `ServiceInstance::get_socket_addr` (src/service/instance.rs lines
171-175): `Some (assigned_ip, service_port)` when a proxy is configured. -/
def ServiceInstanceConfig.get_socket_addr (c : ServiceInstanceConfig) : Option (Nat × Nat) :=
  c.proxy.map (fun proxy_settings => (c.assigned_ip, proxy_settings.service_port))

/-- `HostRoute` (src/service/manager.rs lines 66-69). -/
structure HostRoute where
  path : List Char
  service_index : Nat
deriving DecidableEq, Repr

/-- The per-route match test inside `ServicesManager::resolve_route`
(src/service/manager.rs lines 97-104): the root route `"/"` matches
everything; otherwise an exact match, or a prefix match whose next byte in
the request path is `'/'`. -/
def routeMatches (rp p : List Char) : Bool :=
  if rp = ['/'] ∨ p = rp then true
  else if listStartsWith p rp then decide (p.get? rp.length = some '/')
  else false

/-- `ServicesManager::resolve_route` (src/service/manager.rs lines 92-112):
empty path becomes `"/"`, the host is looked up in the router table, the
first matching route (the table is stored sorted by descending prefix
length) selects the instance, whose socket address is returned. -/
def resolve_route (instances : List ServiceInstanceConfig)
    (router : List (List Char × List HostRoute)) (host path : List Char) : Option (Nat × Nat) :=
  let p := if path = [] then ['/'] else path
  match lookupA router host with
  | none => none
  | some routes =>
    match routes.find? (fun route => routeMatches route.path p) with
    | none => none
    | some route => (instances.get? route.service_index).bind ServiceInstanceConfig.get_socket_addr

/-- The match rule exactly as claim C1 words it: the route prefix equals
the path, or it is a proper prefix of the path followed immediately
by `'/'`.  (Stated from the claim, for comparison with `routeMatches`.) -/
def claimRouteMatches (rp p : List Char) : Bool :=
  decide (p = rp) ||
    (listStartsWith p rp && decide (rp ≠ p) && decide (p.get? rp.length = some '/'))

/-- The resolver under claim C1's match rule (claim-worded, for
comparison with `resolve_route`). -/
def resolve_route_claimed (instances : List ServiceInstanceConfig)
    (router : List (List Char × List HostRoute)) (host path : List Char) : Option (Nat × Nat) :=
  let p := if path = [] then ['/'] else path
  match lookupA router host with
  | none => none
  | some routes =>
    match routes.find? (fun route => claimRouteMatches route.path p) with
    | none => none
    | some route => (instances.get? route.service_index).bind ServiceInstanceConfig.get_socket_addr

/-- Claim C1's match rule amended with the root-route clause the code
actually has: a route whose prefix is `"/"` matches every path. -/
def amendedRouteMatches (rp p : List Char) : Bool :=
  decide (rp = ['/']) || claimRouteMatches rp p

/-- The resolver under the amended match rule (spec-worded, for
comparison with `resolve_route`). -/
def resolve_route_amended (instances : List ServiceInstanceConfig)
    (router : List (List Char × List HostRoute)) (host path : List Char) : Option (Nat × Nat) :=
  let p := if path = [] then ['/'] else path
  match lookupA router host with
  | none => none
  | some routes =>
    match routes.find? (fun route => amendedRouteMatches route.path p) with
    | none => none
    | some route => (instances.get? route.service_index).bind ServiceInstanceConfig.get_socket_addr

/-! ### Router construction (ServicesManager::from_config) -/

/-- `normalize_path` (src/service/manager.rs lines 492-504): default `"/"`,
ensure a leading `'/'`, strip one trailing `'/'` unless the path is just
`"/"`. -/
def normalize_path (p : Option (List Char)) : List Char :=
  let path := p.getD ['/']
  if path = [] then ['/']
  else
    let path2 := if listStartsWith path ['/'] then path else '/' :: path
    if 1 < path2.length ∧ path2.getLast? = some '/' then path2.dropLast else path2

/-- `router.entry(host).or_insert_with(Vec::new).push(route)`
(src/service/manager.rs lines 349-353). -/
def pushRoute : List (List Char × List HostRoute) → List Char → HostRoute →
    List (List Char × List HostRoute)
  | [], h, r => [(h, [r])]
  | (h0, rs) :: rest, h, r =>
    if h0 = h then (h0, rs ++ [r]) :: rest else (h0, rs) :: pushRoute rest h r

/-- The route-insertion loop of `ServicesManager::from_config`
(src/service/manager.rs lines 341-363): walk the joined instances, and for
each one carrying a proxy block push a route for its host; the index
increments for every joined instance. -/
def buildRouter : List ServiceInstanceConfig → Nat → List (List Char × List HostRoute) →
    List (List Char × List HostRoute)
  | [], _, router => router
  | inst :: rest, idx, router =>
    match inst.proxy with
    | some proxy_config =>
      buildRouter rest (idx + 1)
        (pushRoute router proxy_config.host ⟨normalize_path proxy_config.path, idx⟩)
    | none => buildRouter rest (idx + 1) router

/-- One insertion step of a stable sort by descending path length. -/
def insertRouteSorted (r : HostRoute) : List HostRoute → List HostRoute
  | [] => [r]
  | x :: xs =>
    if x.path.length < r.path.length then r :: x :: xs else x :: insertRouteSorted r xs

/-- `routes.sort_by(|a, b| b.path.len().cmp(&a.path.len()))`
(src/service/manager.rs lines 366-368). -/
def sortRoutesDesc (rs : List HostRoute) : List HostRoute :=
  rs.foldr insertRouteSorted []

/-- Sorting every host's route list, as `from_config` does after building
the table. -/
def sortRouter (router : List (List Char × List HostRoute)) :
    List (List Char × List HostRoute) :=
  router.map (fun e => (e.1, sortRoutesDesc e.2))

/-- The route table produced by `ServicesManager::from_config` for a given
joined instance list. -/
def from_config_router (instances : List ServiceInstanceConfig) :
    List (List Char × List HostRoute) :=
  sortRouter (buildRouter instances 0 [])

/-! ### IP allocation (src/service/manager.rs lines 506-569) -/

/-- `u32::from(Ipv4Addr::new(172, 28, 0, 0))`. -/
def base_ip : Nat := ipv4 172 28 0 0

/-- The gateway `172.28.0.1`, reserved before any allocation. -/
def gateway_ip : Nat := ipv4 172 28 0 1

/-- The Reserve phase (src/service/manager.rs lines 521-533): walk the
declared services in order; every one present in the previous mapping
carries its prior IP verbatim into `assigned` and `used`. -/
def reservePhase (existing : List (String × Nat)) :
    List String → List (String × Nat) → List Nat → List (String × Nat) × List Nat
  | [], assigned, used => (assigned, used)
  | s :: rest, assigned, used =>
    match lookupA existing s with
    | some ip => reservePhase existing rest (insertA assigned s ip) (insertS used ip)
    | none => reservePhase existing rest assigned used

/-- The inner `loop` of the Fill phase (src/service/manager.rs lines
546-565): scan candidates `base_ip + offset, base_ip + offset + 1, …`;
a candidate is taken the moment it is not in `used`; the bump of
`next_offset` past `65534` panics (modelled as `none`) before the candidate
is tested.  `fuel` is only a structural bound; `find_next_ip` supplies
enough of it that the `65534` guard always fires first. -/
def fillOne : List Nat → Nat → Nat → Option (Nat × Nat)
  | _, _, 0 => none
  | used, offset, fuel + 1 =>
    let candidate := base_ip + offset
    let offset2 := offset + 1
    if 65534 < offset2 then none
    else if candidate ∈ used then fillOne used offset2 fuel
    else some (candidate, offset2)

/-- The Fill-phase candidate scan starting at `offset`, returning the
assigned IP and the next value of `next_offset`. -/
def find_next_ip (used : List Nat) (offset : Nat) : Option (Nat × Nat) :=
  fillOne used offset (65535 - offset)

/-- The Fill phase (src/service/manager.rs lines 535-566): walk the
declared services in order; each one not yet assigned gets the next
available candidate; `next_offset` rolls forward across services. -/
def fillPhase : List String → List (String × Nat) → List Nat → Nat →
    Option (List (String × Nat))
  | [], assigned, _, _ => some assigned
  | s :: rest, assigned, used, offset =>
    if (lookupA assigned s).isSome then fillPhase rest assigned used offset
    else
      match find_next_ip used offset with
      | none => none
      | some (ip, offset2) => fillPhase rest (insertA assigned s ip) (insertS used ip) offset2

/-- `allocate_ips` (src/service/manager.rs lines 506-569): reserve the
gateway, run the Reserve phase over the previous mapping
(`existing_ips.unwrap_or_default()`), then the Fill phase starting at
offset 2.  `none` models the exhausted-subnet panic. -/
def allocate_ips (services : List String) (existing : Option (List (String × Nat))) :
    Option (List (String × Nat)) :=
  let ex := existing.getD []
  let r := reservePhase ex services [] (insertS [] gateway_ip)
  fillPhase services r.1 r.2 2

/-- The lowest free offset at or above `k`, scanned over the same candidate
window `[k, 65533]` as the source's loop.  (Spec-worded helper for the
claim's "lowest address from 172.28.0.2 upward not already used".) -/
def lowestFreeAux : List Nat → Nat → Nat → Option Nat
  | _, _, 0 => none
  | used, k, fuel + 1 =>
    if 65534 ≤ k then none
    else if base_ip + k ∈ used then lowestFreeAux used (k + 1) fuel
    else some (base_ip + k)

/-- The lowest address at or above `base_ip + k` not in `used`. -/
def lowest_free (used : List Nat) (k : Nat) : Option Nat :=
  lowestFreeAux used k (65534 - k)

/-- The Fill phase exactly as claim C2 words it: each remaining declared
service, in order, gets the lowest address from `172.28.0.2` upward not
already used (no rolling offset). -/
def specFill : List String → List (String × Nat) → List Nat → Option (List (String × Nat))
  | [], assigned, _ => some assigned
  | s :: rest, assigned, used =>
    if (lookupA assigned s).isSome then specFill rest assigned used
    else
      match lowest_free used 2 with
      | none => none
      | some ip => specFill rest (insertA assigned s ip) (insertS used ip)

/-- `allocate_ips` as claim C2 words it: gateway marked used, Reserve phase
verbatim, then lowest-free Fill (spec-worded, for comparison with
`allocate_ips`). -/
def allocate_ips_spec (services : List String) (existing : Option (List (String × Nat))) :
    Option (List (String × Nat)) :=
  let ex := existing.getD []
  let r := reservePhase ex services [] (insertS [] gateway_ip)
  specFill services r.1 r.2

/-! ### Polling arbitration (src/service/instance.rs lines 516-578) -/

/-- `Initialize` from src/service/file.rs: start immediately on the first
tick, or only when a trigger fires. -/
inductive InitMode where
  | immediately
  | onTrigger
deriving DecidableEq, Repr, Fintype

/-- `ImageWatcherStatus` (src/service/manifest.rs lines 59-64). -/
inductive ImageWatcherStatus where
  | notUpdated
  | updated
  | deleted
deriving DecidableEq, Repr, Fintype

/-- The container operations `poll` can perform, in order. -/
inductive PollAction where
  | runContainer
  | recreateContainer
deriving DecidableEq, Repr

/-- `ServiceInstance::poll` (src/service/instance.rs lines 516-578) as the
sequence of container operations it performs.  `cronReady` is the result
of `cron_watcher.is_ready()` when a cron watcher exists; `imageUpdate` the
result of `image_watcher.update()` when an image watcher exists.  Errors
of the operations are logged, never propagated, so they do not affect the
sequence. -/
def poll (initMode : InitMode) (watch : Bool) (cronReady : Option Bool)
    (imageUpdate : Option ImageWatcherStatus) (pollImages init : Bool) : List PollAction :=
  if init ∧ initMode = .immediately then [.runContainer]
  else
    match cronReady with
    | some true => [.runContainer]
    | _ =>
      if watch ∧ pollImages then
        match imageUpdate with
        | some .updated => [.recreateContainer, .runContainer]
        | _ => []
      else []

/-- The arbitration exactly as claim C3 words it (claim-worded, for
comparison with `poll`). -/
def pollClaim (initMode : InitMode) (watch : Bool) (cronReady : Option Bool)
    (imageUpdate : Option ImageWatcherStatus) (pollImages init : Bool) : List PollAction :=
  if init ∧ initMode = .immediately then [.runContainer]
  else if cronReady = some true then [.runContainer]
  else if watch ∧ pollImages ∧ imageUpdate = some .updated then
    [.recreateContainer, .runContainer]
  else []

/-! ### Image watcher (src/service/manifest.rs lines 83-101) -/

/-- `Sha256` (src/service/manifest.rs lines 23-27): 64 base16 bytes,
bytewise equality. -/
structure Sha256 where
  inner : List Nat
deriving DecidableEq, Repr

/-- A stand-in for `ImageWatcherError`; `update` only logs it. -/
inductive ImageWatcherError where
  | dockerApiError
deriving DecidableEq, Repr

/-- `ImageWatcher::update` (src/service/manifest.rs lines 83-101) acting on
the stored digest: a failed fetch reports `deleted` and leaves the digest;
a fetch equal to the stored digest reports `notUpdated`; otherwise the new
digest is stored and `updated` reported. -/
def ImageWatcher.update (last : Option Sha256) (fetched : Except ImageWatcherError Sha256) :
    ImageWatcherStatus × Option Sha256 :=
  match fetched with
  | .error _ => (.deleted, last)
  | .ok d => if last = some d then (.notUpdated, last) else (.updated, some d)

/-! ### Cron watcher (src/service/cron_watcher.rs lines 33-57) -/

/-- `NONE_TIMESTAMP = i64::MIN`, the "no future occurrence" sentinel. -/
def NONE_TIMESTAMP : Int := -9223372036854775808

/-- `CronWatcher::is_ready` as one load-then-CAS round: `current` is the
loaded value of `next_fire_ts`, `now` the sampled current time, `upcoming`
the freshly computed next occurrence (or the sentinel), and `vAtCAS` the
value of `next_fire_ts` at the instant of the compare-exchange.  Returns
the boolean result and the resulting value of `next_fire_ts`. -/
def CronWatcher.is_ready (current now upcoming vAtCAS : Int) : Bool × Int :=
  if current = NONE_TIMESTAMP then (false, vAtCAS)
  else if now < current then (false, vAtCAS)
  else if vAtCAS = current then (true, upcoming)
  else (false, vAtCAS)

/-- One concurrent caller of `is_ready`, flattened to its CAS attempt: the
value it loaded, the time it sampled, and the next occurrence it computed.
The schedule computes occurrences strictly after the sampling time, so a
well-formed attempt has `next = NONE_TIMESTAMP ∨ now < next`. -/
structure CasAttempt where
  loaded : Int
  now : Int
  next : Int
deriving DecidableEq, Repr

/-- The shared-variable effect of one `is_ready` call: the CAS fires only
when the loaded value is not the sentinel, the deadline has passed, and
the variable still holds the loaded value. -/
def casStep (v : Int) (a : CasAttempt) : Bool × Int :=
  if a.loaded ≠ NONE_TIMESTAMP ∧ a.loaded ≤ a.now ∧ v = a.loaded then (true, a.next)
  else (false, v)

/-- How many attempts in the interleaving consume the stored instant `t`
(observe `true` with loaded value `t`), starting from shared value `v`. -/
def consumedCount (t : Int) : Int → List CasAttempt → Nat
  | _, [] => 0
  | v, a :: rest =>
    match casStep v a with
    | (ok, v2) => (if ok = true ∧ a.loaded = t then 1 else 0) + consumedCount t v2 rest

/-- Every attempt's computed next occurrence is the sentinel or strictly
after its sampling time (what `schedule.upcoming(Local).next()`
guarantees). -/
def WellFormedAttempts (l : List CasAttempt) : Prop :=
  ∀ a ∈ l, a.next = NONE_TIMESTAMP ∨ a.now < a.next

/-! ### Proxy request filter (src/proxy/mod.rs lines 35-106) -/

/-- `ProxyStrategy` from src/service/file.rs. -/
inductive ProxyStrategy where
  | httpOnly
  | httpsOnly
  | both
deriving DecidableEq, Repr

/-- What `request_filter` does with a request: serve an ACME challenge
body, emit the 301 redirect to `https://host + path_and_query`, or hand
the request on to upstream routing. -/
inductive FilterOutcome where
  | served (content : List Nat)
  | redirect (hostHeader pathAndQuery : List Char)
  | forwarded
deriving DecidableEq, Repr

/-- The ACME challenge path root `"/.well-known/acme-challenge/"`. -/
def acmeChallengeRoot : List Char := "/.well-known/acme-challenge/".toList

/-- The tail of `request_filter` (src/proxy/mod.rs lines 64-105): on the
plaintext listener under the HttpsOnly strategy, answer 301 to the https
URL; otherwise forward to upstream routing. -/
def redirect_or_forward (isSsl : Bool) (strategy : ProxyStrategy)
    (hostHeader pathAndQuery : List Char) : FilterOutcome :=
  if isSsl = false ∧ strategy = .httpsOnly then .redirect hostHeader pathAndQuery
  else .forwarded

/-- `DispenserProxy::request_filter` (src/proxy/mod.rs lines 35-106).
`challenges` models the on-disk challenge directory as token ↦ file body;
`hostHeader` is the Host header with its `"localhost"` default already
applied, `pathAndQuery` the request target with its `"/"` default.  The
ACME branch runs only on the plaintext listener (`isSsl = false`), and a
missing token file falls through to the redirect/forward tail. -/
def request_filter (isSsl : Bool) (strategy : ProxyStrategy) (path : List Char)
    (challenges : List (List Char × List Nat)) (hostHeader pathAndQuery : List Char) :
    FilterOutcome :=
  if isSsl = false ∧ listStartsWith path acmeChallengeRoot then
    match lookupA challenges (path.drop acmeChallengeRoot.length) with
    | some content => .served content
    | none => redirect_or_forward isSsl strategy hostHeader pathAndQuery
  else redirect_or_forward isSsl strategy hostHeader pathAndQuery

/-! ### Container start/stop error handling (src/service/instance.rs) -/

/-- `PullOptions` from src/service/file.rs. -/
inductive PullOptions where
  | always
  | onStartup
deriving DecidableEq, Repr

/-- A runtime call outcome: `ok`, or an error carrying the HTTP status code
of the Docker daemon's response (`DockerResponseServerError`). -/
abbrev DockerOutcome := Except Nat Unit

/-- The error handling of `ServiceInstance::stop_container`
(src/service/instance.rs lines 212-253): 404 (not found) and 304 (already
stopped) are mapped to success, every other error propagates. -/
def stop_container_result (r : DockerOutcome) : DockerOutcome :=
  match r with
  | .ok _ => .ok ()
  | .error 404 => .ok ()
  | .error 304 => .ok ()
  | .error e => .error e

/-- The error handling of `ServiceInstance::remove_container`
(src/service/instance.rs lines 255-291): 404 is mapped to success, every
other error propagates. -/
def remove_container_result (r : DockerOutcome) : DockerOutcome :=
  match r with
  | .ok _ => .ok ()
  | .error 404 => .ok ()
  | .error e => .error e

/-- The tail of `ServiceInstance::run_container` after the dependency gate
(src/service/instance.rs lines 140-167): recreate when `pull == always` or
the container is missing, then issue `start`; the `start` result is
propagated verbatim by the `?` operator — no status code is translated. -/
def run_container_after_gate (pull : PullOptions) (containerMissing : Bool)
    (recreateRes startRes : DockerOutcome) : DockerOutcome :=
  if pull = .always ∨ containerMissing = true then
    match recreateRes with
    | .error e => .error e
    | .ok _ => startRes
  else startRes

/-! ### Concrete routing fixture (the S1 scenario of the spec and the
`test_resolve_route_path_matching` test of src/service/manager.rs) -/

/-- Three instances for one host: index 0 the root route service at
`172.28.0.10`, index 1 the `/api/v1` service at `.11`, index 2 the `/api`
service at `.12`. -/
def exampleInstances : List ServiceInstanceConfig :=
  [⟨some ⟨"example.com".toList, none, 8080⟩, ipv4 172 28 0 10⟩,
   ⟨some ⟨"example.com".toList, some ("/api/v1".toList), 8081⟩, ipv4 172 28 0 11⟩,
   ⟨some ⟨"example.com".toList, some ("/api".toList), 8082⟩, ipv4 172 28 0 12⟩]

/-- The corresponding route table, already sorted by descending prefix
length. -/
def exampleRouter : List (List Char × List HostRoute) :=
  [("example.com".toList,
    [⟨"/api/v1".toList, 1⟩, ⟨"/api".toList, 2⟩, ⟨"/".toList, 0⟩])]

/-! ## Helper lemmas -/

theorem routeMatches_eq_amended (rp p : List Char) :
    routeMatches rp p = amendedRouteMatches rp p := by
  unfold routeMatches amendedRouteMatches claimRouteMatches
  by_cases h1 : rp = ['/']
  · simp [h1]
  · by_cases h2 : p = rp
    · simp [h1, h2]
    · have h3 : rp ≠ p := fun h => h2 h.symm
      by_cases h4 : listStartsWith p rp
      · simp [h1, h2, h3, h4]
      · simp [h1, h2, h3, h4]

theorem resolve_route_eq_amended (instances : List ServiceInstanceConfig)
    (router : List (List Char × List HostRoute)) (host path : List Char) :
    resolve_route instances router host path = resolve_route_amended instances router host path := by
  have hm : (fun route : HostRoute => routeMatches route.path (if path = [] then ['/'] else path)) =
      (fun route : HostRoute => amendedRouteMatches route.path (if path = [] then ['/'] else path)) := by
    funext r
    exact routeMatches_eq_amended r.path (if path = [] then ['/'] else path)
  unfold resolve_route resolve_route_amended
  simp only [hm]

/-! ## Claim theorems -/

/-- C3: `poll(poll_images, is_first_tick)` arbitrates exactly as claimed:
first-tick immediate start, else cron, else (watch ∧ poll_images ∧ image
Updated) recreate-then-run, else no-op; and with `initialize = on_trigger`,
a cron schedule and `watch = true`, the first tick runs only if cron is
due and otherwise does nothing. -/
theorem claim_C3_poll_arbitration :
    (∀ (initMode : InitMode) (watch : Bool) (cronReady : Option Bool)
        (imageUpdate : Option ImageWatcherStatus) (pollImages init : Bool),
      poll initMode watch cronReady imageUpdate pollImages init =
        pollClaim initMode watch cronReady imageUpdate pollImages init) ∧
    (∀ (cronDue : Bool) (imageUpdate : Option ImageWatcherStatus),
      poll .onTrigger true (some cronDue) imageUpdate false true =
        if cronDue then [.runContainer] else []) := by
  constructor
  · decide
  · decide

/-- C4: `ImageWatcher::update` returns `Updated` and stores the digest on a
first successful fetch or a changed digest, `NotUpdated` on an unchanged
digest, `Deleted` with unchanged state on a failed fetch; two successive
updates fetching the same digest yield `NotUpdated` on the second. -/
theorem claim_C4_image_watcher_update :
    (∀ d : Sha256, ImageWatcher.update none (.ok d) = (.updated, some d)) ∧
    (∀ d : Sha256, ImageWatcher.update (some d) (.ok d) = (.notUpdated, some d)) ∧
    (∀ p d : Sha256, p ≠ d → ImageWatcher.update (some p) (.ok d) = (.updated, some d)) ∧
    (∀ (last : Option Sha256) (e : ImageWatcherError),
      ImageWatcher.update last (.error e) = (.deleted, last)) ∧
    (∀ (last : Option Sha256) (d : Sha256),
      (ImageWatcher.update (ImageWatcher.update last (.ok d)).2 (.ok d)).1 = .notUpdated) := by
  refine ⟨?_, ?_, ?_, ?_, ?_⟩
  · intro d; simp [ImageWatcher.update]
  · intro d; simp [ImageWatcher.update]
  · intro p d h; simp [ImageWatcher.update, h]
  · intro last e; simp [ImageWatcher.update]
  · intro last d
    by_cases h : last = some d
    · simp [ImageWatcher.update, h]
    · simp [ImageWatcher.update, h]

/-- C4 witness: the changed-digest case at a concrete pair of digests. -/
theorem claim_C4_witness :
    (⟨[0]⟩ : Sha256) ≠ ⟨[1]⟩ ∧
      ImageWatcher.update (some ⟨[0]⟩) (.ok ⟨[1]⟩) = (.updated, some ⟨[1]⟩) :=
  ⟨by decide, claim_C4_image_watcher_update.2.2.1 ⟨[0]⟩ ⟨[1]⟩ (by decide)⟩

/-- C5: one `is_ready` round returns false when the stored value is the
sentinel or `now` is strictly before it; otherwise it returns true exactly
when the CAS succeeds (the variable still holds the loaded value), in
which case the stored value becomes the freshly computed occurrence. -/
theorem claim_C5_cron_is_ready :
    ∀ current now upcoming vAtCAS : Int,
      ((CronWatcher.is_ready current now upcoming vAtCAS).1 = true ↔
        current ≠ NONE_TIMESTAMP ∧ current ≤ now ∧ vAtCAS = current) ∧
      ((CronWatcher.is_ready current now upcoming vAtCAS).1 = true →
        (CronWatcher.is_ready current now upcoming vAtCAS).2 = upcoming) ∧
      ((CronWatcher.is_ready current now upcoming vAtCAS).1 = false →
        (CronWatcher.is_ready current now upcoming vAtCAS).2 = vAtCAS) := by
  intro current now upcoming vAtCAS
  unfold CronWatcher.is_ready
  split_ifs with h1 h2 h3 <;> simp_all [not_lt]

/-- C5 witness: a due, uncontended round at concrete values consumes the
stored instant and installs the new occurrence. -/
theorem claim_C5_witness :
    (CronWatcher.is_ready 5 10 60 5).1 = true ∧ (CronWatcher.is_ready 5 10 60 5).2 = 60 := by
  have h := claim_C5_cron_is_ready 5 10 60 5
  have ht : (CronWatcher.is_ready 5 10 60 5).1 = true :=
    h.1.mpr ⟨by decide, by decide, rfl⟩
  exact ⟨ht, h.2.1 ht⟩

/-- C7 counterexample: with `pull = on_startup` and an existing container,
a 304 from `start` makes `run_container` return that error, not success —
the claim's "translates 304 into success" is false on the code. -/
theorem claim_C7_counterexample :
    run_container_after_gate .onStartup false (.ok ()) (.error 304) = .error 304 ∧
      (Except.error 304 : DockerOutcome) ≠ .ok () := by
  refine ⟨rfl, ?_⟩
  intro h
  exact Except.noConfusion h

/-- C7 (amended): `run_container` propagates the `start` outcome verbatim
(304 and 404 included, neither is recoverable there); 404 and 304 are
mapped to success in `stop`, and 404 alone in `remove`. -/
theorem claim_C7_start_error_handling :
    (∀ (pull : PullOptions) (missing : Bool) (s : DockerOutcome),
      run_container_after_gate pull missing (.ok ()) s = s) ∧
    (∀ (missing : Bool) (s : DockerOutcome) (e : Nat),
      run_container_after_gate .always missing (.error e) s = .error e) ∧
    stop_container_result (.error 404) = .ok () ∧
    stop_container_result (.error 304) = .ok () ∧
    remove_container_result (.error 404) = .ok () ∧
    remove_container_result (.error 304) = .error 304 ∧
    (∀ e : Nat, e ≠ 404 → e ≠ 304 → stop_container_result (.error e) = .error e) ∧
    (∀ e : Nat, e ≠ 404 → remove_container_result (.error e) = .error e) := by
  refine ⟨?_, ?_, rfl, rfl, rfl, rfl, ?_, ?_⟩
  · intro pull missing s
    unfold run_container_after_gate
    split <;> rfl
  · intro missing s e
    unfold run_container_after_gate
    simp
  · intro e h1 h2
    unfold stop_container_result
    split <;> simp_all
  · intro e h1
    unfold remove_container_result
    split <;> simp_all

/-- C7 witness: a 500 from `stop` propagates, and a 304 from `start`
propagates. -/
theorem claim_C7_witness :
    (500 : Nat) ≠ 404 ∧ (500 : Nat) ≠ 304 ∧
      stop_container_result (.error 500) = .error 500 ∧
      run_container_after_gate .onStartup false (.ok ()) (.error 304) = .error 304 :=
  ⟨by decide, by decide,
    claim_C7_start_error_handling.2.2.2.2.2.2.1 500 (by decide) (by decide),
    claim_C7_start_error_handling.1 .onStartup false (.error 304)⟩

/-- C8 counterexample: a challenge request on the TLS listener is not
served even though the token file exists (the ACME branch requires the
plaintext listener), and on the plaintext listener with the token file
absent the request is redirected under HttpsOnly rather than answered
404 — both against the claim. -/
theorem claim_C8_counterexample :
    request_filter true .both ("/.well-known/acme-challenge/tok".toList)
        [("tok".toList, [1])] ("h".toList) ("/".toList) = .forwarded ∧
      lookupA [("tok".toList, [1])]
        (("/.well-known/acme-challenge/tok".toList).drop acmeChallengeRoot.length) = some [1] ∧
      request_filter false .httpsOnly ("/.well-known/acme-challenge/tok".toList)
        [] ("h".toList) ("/".toList) = .redirect ("h".toList) ("/".toList) := by
  refine ⟨?_, ?_, ?_⟩ <;> decide

/-- C8 (amended): on the plaintext listener a challenge-path request is
served from the challenge directory regardless of strategy, and with the
token absent it falls through to the redirect/forward tail; on the TLS
listener the challenge branch is skipped and the request is forwarded. -/
theorem claim_C8_acme_filter :
    ∀ (strategy : ProxyStrategy) (path : List Char)
      (challenges : List (List Char × List Nat)) (hostHeader pathAndQuery : List Char)
      (content : List Nat),
      (listStartsWith path acmeChallengeRoot = true →
        lookupA challenges (path.drop acmeChallengeRoot.length) = some content →
        request_filter false strategy path challenges hostHeader pathAndQuery =
          .served content) ∧
      (listStartsWith path acmeChallengeRoot = true →
        lookupA challenges (path.drop acmeChallengeRoot.length) = none →
        request_filter false strategy path challenges hostHeader pathAndQuery =
          redirect_or_forward false strategy hostHeader pathAndQuery) ∧
      request_filter true strategy path challenges hostHeader pathAndQuery = .forwarded := by
  intro strategy path challenges hostHeader pathAndQuery content
  refine ⟨?_, ?_, ?_⟩
  · intro h1 h2
    simp [request_filter, h1, h2]
  · intro h1 h2
    simp [request_filter, h1, h2]
  · simp [request_filter, redirect_or_forward]

/-- C8 witness: a present token on the plaintext listener is served. -/
theorem claim_C8_witness :
    listStartsWith ("/.well-known/acme-challenge/tok".toList) acmeChallengeRoot = true ∧
      lookupA [("tok".toList, [7])]
        (("/.well-known/acme-challenge/tok".toList).drop acmeChallengeRoot.length) = some [7] ∧
      request_filter false .both ("/.well-known/acme-challenge/tok".toList)
        [("tok".toList, [7])] ("h".toList) ("/".toList) = .served [7] :=
  ⟨by decide, by decide,
    (claim_C8_acme_filter .both ("/.well-known/acme-challenge/tok".toList)
      [("tok".toList, [7])] ("h".toList) ("/".toList) [7]).1 (by decide) (by decide)⟩

/-- C1 counterexample: under the claim's match rule ("equals the path or
is a proper prefix followed by '/'"), no route of
`("/api/v1", "/api", "/")` matches `/api-v2`, so the claim-worded resolver
returns none — yet the code resolves `/api-v2` to the root route's
service, because `resolve_route` lets the `"/"` route match every path. -/
theorem claim_C1_counterexample :
    resolve_route exampleInstances exampleRouter ("example.com".toList) ("/api-v2".toList) =
      some (ipv4 172 28 0 10, 8080) ∧
    resolve_route_claimed exampleInstances exampleRouter ("example.com".toList)
      ("/api-v2".toList) = none := by
  refine ⟨?_, ?_⟩ <;> decide

/-- C1 (amended): `resolve_route` treats an empty path as "/", returns
none when the host is absent, and otherwise returns the first route, in
the length-descending list, whose prefix is "/" (the root route matches
every path), equals the path, or is a proper prefix of the path followed
immediately by '/'; `/api-v2` does not match `/api` and resolves to the
root route's service. -/
theorem claim_C1_resolve_route :
    (∀ instances router host path,
      resolve_route instances router host path =
        resolve_route_amended instances router host path) ∧
    (∀ instances router host,
      resolve_route instances router host [] = resolve_route instances router host ['/']) ∧
    (∀ instances router host path, lookupA router host = none →
      resolve_route instances router host path = none) ∧
    resolve_route exampleInstances exampleRouter ("example.com".toList) ("/api-v2".toList) =
      some (ipv4 172 28 0 10, 8080) ∧
    routeMatches ("/api".toList) ("/api-v2".toList) = false := by
  refine ⟨resolve_route_eq_amended, ?_, ?_, by decide, by decide⟩
  · intro instances router host
    rfl
  · intro instances router host path h
    unfold resolve_route
    rw [h]

/-- C1 witness: an absent host resolves to none. -/
theorem claim_C1_witness :
    lookupA exampleRouter ("nope.com".toList) = none ∧
      resolve_route exampleInstances exampleRouter ("nope.com".toList) ("/".toList) = none :=
  ⟨by decide,
    claim_C1_resolve_route.2.2.1 exampleInstances exampleRouter ("nope.com".toList)
      ("/".toList) (by decide)⟩
/-! ## Cron at-most-one-consumer lemmas -/

theorem consumedCount_zero (t : Int) (l : List CasAttempt) (hwf : WellFormedAttempts l) :
    ∀ v : Int, (v = NONE_TIMESTAMP ∨ t < v) → consumedCount t v l = 0 := by
  induction l with
  | nil => intro v _; rfl
  | cons a rest ih =>
    intro v hv
    have hwfa : a.next = NONE_TIMESTAMP ∨ a.now < a.next := hwf a (List.mem_cons_self a rest)
    have hwfr : WellFormedAttempts rest := fun b hb => hwf b (List.mem_cons_of_mem a hb)
    by_cases hc : a.loaded ≠ NONE_TIMESTAMP ∧ a.loaded ≤ a.now ∧ v = a.loaded
    · have hstep : casStep v a = (true, a.next) := by unfold casStep; exact if_pos hc
      obtain ⟨h1, h2, h3⟩ := hc
      have hlt : t < a.loaded := by rcases hv with hv | hv <;> omega
      have hne : a.loaded ≠ t := by omega
      have hnext : a.next = NONE_TIMESTAMP ∨ t < a.next := by
        rcases hwfa with h | h
        · exact Or.inl h
        · exact Or.inr (by omega)
      simp only [consumedCount, hstep]
      simp [hne, ih hwfr a.next hnext]
    · have hstep : casStep v a = (false, v) := by unfold casStep; exact if_neg hc
      simp only [consumedCount, hstep]
      simp [ih hwfr v hv]

theorem consumedCount_le_one (t : Int) (l : List CasAttempt) (hwf : WellFormedAttempts l) :
    ∀ v : Int, consumedCount t v l ≤ 1 := by
  induction l with
  | nil => intro v; simp [consumedCount]
  | cons a rest ih =>
    intro v
    have hwfa : a.next = NONE_TIMESTAMP ∨ a.now < a.next := hwf a (List.mem_cons_self a rest)
    have hwfr : WellFormedAttempts rest := fun b hb => hwf b (List.mem_cons_of_mem a hb)
    by_cases hc : a.loaded ≠ NONE_TIMESTAMP ∧ a.loaded ≤ a.now ∧ v = a.loaded
    · have hstep : casStep v a = (true, a.next) := by unfold casStep; exact if_pos hc
      obtain ⟨h1, h2, h3⟩ := hc
      by_cases ht : a.loaded = t
      · have hnext : a.next = NONE_TIMESTAMP ∨ t < a.next := by
          rcases hwfa with h | h
          · exact Or.inl h
          · exact Or.inr (by omega)
        simp only [consumedCount, hstep]
        simp [ht, consumedCount_zero t rest hwfr a.next hnext]
      · simp only [consumedCount, hstep]
        simp [ht, ih hwfr a.next]
    · have hstep : casStep v a = (false, v) := by unfold casStep; exact if_neg hc
      simp only [consumedCount, hstep]
      simp [ih hwfr v]

theorem consumedCount_eq_one (t : Int) (l : List CasAttempt) (hwf : WellFormedAttempts l)
    (hne : t ≠ NONE_TIMESTAMP) :
    ∀ v : Int, v = t → (∃ a ∈ l, a.loaded = t ∧ t ≤ a.now) → consumedCount t v l = 1 := by
  induction l with
  | nil => intro v _ hex; simp at hex
  | cons a rest ih =>
    intro v hv hex
    have hwfa : a.next = NONE_TIMESTAMP ∨ a.now < a.next := hwf a (List.mem_cons_self a rest)
    have hwfr : WellFormedAttempts rest := fun b hb => hwf b (List.mem_cons_of_mem a hb)
    by_cases hc : a.loaded ≠ NONE_TIMESTAMP ∧ a.loaded ≤ a.now ∧ v = a.loaded
    · have hstep : casStep v a = (true, a.next) := by unfold casStep; exact if_pos hc
      obtain ⟨h1, h2, h3⟩ := hc
      have ht : a.loaded = t := by omega
      have hnext : a.next = NONE_TIMESTAMP ∨ t < a.next := by
        rcases hwfa with h | h
        · exact Or.inl h
        · exact Or.inr (by omega)
      simp only [consumedCount, hstep]
      simp [ht, consumedCount_zero t rest hwfr a.next hnext]
    · have hstep : casStep v a = (false, v) := by unfold casStep; exact if_neg hc
      rcases hex with ⟨a0, ha0, hl0, hn0⟩
      rcases List.mem_cons.mp ha0 with rfl | ha0r
      · exact absurd ⟨by omega, by omega, by omega⟩ hc
      · simp only [consumedCount, hstep]
        simp [ih hwfr v hv ⟨a0, ha0r, hl0, hn0⟩]

/-- C6: in any interleaving of concurrent `is_ready` calls, modelled as
load/CAS attempts on the shared `next_fire_ts`, at most one caller
consumes any given stored instant — and when the variable holds a due,
non-sentinel instant that some attempt loaded in time, exactly one caller
consumes it. -/
theorem claim_C6_at_most_one_consumer :
    ∀ (t v : Int) (l : List CasAttempt), WellFormedAttempts l →
      consumedCount t v l ≤ 1 ∧
      (v = t → t ≠ NONE_TIMESTAMP → (∃ a ∈ l, a.loaded = t ∧ t ≤ a.now) →
        consumedCount t v l = 1) :=
  fun t v l hwf =>
    ⟨consumedCount_le_one t l hwf v,
     fun hv hne hex => consumedCount_eq_one t l hwf hne v hv hex⟩

/-- C6 witness: two concurrent pollers that both loaded the instant 5;
exactly one of them consumes it. -/
theorem claim_C6_witness :
    WellFormedAttempts [⟨5, 10, 60⟩, ⟨5, 11, 70⟩] ∧
      consumedCount 5 5 [⟨5, 10, 60⟩, ⟨5, 11, 70⟩] = 1 := by
  have hwf : WellFormedAttempts [⟨5, 10, 60⟩, ⟨5, 11, 70⟩] := by
    unfold WellFormedAttempts
    decide
  exact ⟨hwf,
    (claim_C6_at_most_one_consumer 5 5 [⟨5, 10, 60⟩, ⟨5, 11, 70⟩] hwf).2 rfl (by decide)
      (by decide)⟩

/-! ## IP allocator lemmas -/

theorem mem_insertS {s : List Nat} {x y : Nat} : x ∈ insertS s y ↔ x = y ∨ x ∈ s := by
  unfold insertS
  split
  · rename_i h
    constructor
    · exact Or.inr
    · rintro (rfl | hx)
      · exact h
      · exact hx
  · simp [List.mem_cons]

theorem fillOne_lowestFree_corr (used : List Nat) :
    ∀ f1 off f2 : Nat, 65534 - off ≤ f1 → 65534 - off ≤ f2 →
      (fillOne used off f1 = none ∧ lowestFreeAux used off f2 = none) ∨
      (∃ c, off ≤ c ∧ c < 65534 ∧ (base_ip + c) ∉ used ∧
        (∀ j, off ≤ j → j < c → base_ip + j ∈ used) ∧
        fillOne used off f1 = some (base_ip + c, c + 1) ∧
        lowestFreeAux used off f2 = some (base_ip + c)) := by
  intro f1
  induction f1 with
  | zero =>
    intro off f2 h1 h2
    left
    refine ⟨rfl, ?_⟩
    cases f2 with
    | zero => rfl
    | succ f2 =>
      have hoff : 65534 ≤ off := by omega
      simp [lowestFreeAux, hoff]
  | succ f1 ih =>
    intro off f2 h1 h2
    by_cases hoff : 65534 ≤ off
    · left
      have hg : 65534 < off + 1 := by omega
      refine ⟨by simp [fillOne, hg], ?_⟩
      cases f2 with
      | zero => rfl
      | succ f2 => simp [lowestFreeAux, hoff]
    · have hofflt : off < 65534 := by omega
      obtain ⟨f2p, rfl⟩ : ∃ n, f2 = n + 1 := ⟨f2 - 1, by omega⟩
      have hguard : ¬65534 < off + 1 := by omega
      have hguard2 : ¬65534 ≤ off := by omega
      by_cases hmem : base_ip + off ∈ used
      · have e1 : fillOne used off (f1 + 1) = fillOne used (off + 1) f1 := by
          simp [fillOne, hguard, hmem]
        have e2 : lowestFreeAux used off (f2p + 1) = lowestFreeAux used (off + 1) f2p := by
          simp [lowestFreeAux, hguard2, hmem]
        rcases ih (off + 1) f2p (by omega) (by omega) with
          ⟨ha, hb⟩ | ⟨c, hc1, hc2, hc3, hc4, hc5, hc6⟩
        · left
          exact ⟨by rw [e1]; exact ha, by rw [e2]; exact hb⟩
        · right
          refine ⟨c, by omega, hc2, hc3, ?_, by rw [e1]; exact hc5, by rw [e2]; exact hc6⟩
          intro j hj1 hj2
          rcases Nat.eq_or_lt_of_le hj1 with rfl | hj
          · exact hmem
          · exact hc4 j hj hj2
      · right
        refine ⟨off, le_refl off, hofflt, hmem, ?_, ?_, ?_⟩
        · intro j hj1 hj2
          exact absurd hj2 (by omega)
        · simp [fillOne, hguard, hmem]
        · simp [lowestFreeAux, hguard2, hmem]

theorem lowest_free_step (used : List Nat) (k : Nat) (hmem : base_ip + k ∈ used)
    (hk : k < 65534) : lowest_free used k = lowest_free used (k + 1) := by
  unfold lowest_free
  have he : 65534 - k = (65534 - (k + 1)) + 1 := by omega
  have hg : ¬65534 ≤ k := by omega
  rw [he]
  simp [lowestFreeAux, hmem, hg]

theorem lowest_free_shift (used : List Nat) (off : Nat) (h2 : 2 ≤ off)
    (hinv : ∀ k, 2 ≤ k → k < off → base_ip + k ∈ used) (hb : off ≤ 65534) :
    lowest_free used 2 = lowest_free used off := by
  revert hinv hb
  induction off, h2 using Nat.le_induction with
  | base => intro _ _; rfl
  | succ n hn ih =>
    intro hinv hb
    have h1 : lowest_free used 2 = lowest_free used n :=
      ih (fun k hk1 hk2 => hinv k hk1 (by omega)) (by omega)
    rw [h1]
    exact lowest_free_step used n (hinv n hn (by omega)) (by omega)

theorem fillPhase_eq_specFill (services : List String) :
    ∀ (assigned : List (String × Nat)) (used : List Nat) (off : Nat),
      2 ≤ off → off ≤ 65534 →
      (∀ k, 2 ≤ k → k < off → base_ip + k ∈ used) →
      fillPhase services assigned used off = specFill services assigned used := by
  induction services with
  | nil => intro a u off _ _ _; rfl
  | cons s rest ih =>
    intro a u off h2 hb hinv
    by_cases hs : (lookupA a s).isSome
    · simp only [fillPhase, specFill, if_pos hs]
      exact ih a u off h2 hb hinv
    · have hcorr := fillOne_lowestFree_corr u (65535 - off) off (65534 - off) (by omega) (by omega)
      have hshift : lowest_free u 2 = lowest_free u off := lowest_free_shift u off h2 hinv hb
      rcases hcorr with ⟨hf, hl⟩ | ⟨c, hc1, hc2, hc3, hc4, hf, hl⟩
      · have hf2 : find_next_ip u off = none := hf
        have hl2 : lowest_free u 2 = none := by rw [hshift]; exact hl
        simp only [fillPhase, specFill, if_neg hs, hf2, hl2]
      · have hf2 : find_next_ip u off = some (base_ip + c, c + 1) := hf
        have hl2 : lowest_free u 2 = some (base_ip + c) := by rw [hshift]; exact hl
        simp only [fillPhase, specFill, if_neg hs, hf2, hl2]
        refine ih (insertA a s (base_ip + c)) (insertS u (base_ip + c)) (c + 1)
          (by omega) (by omega) ?_
        intro k hk1 hk2
        rcases Nat.lt_succ_iff_lt_or_eq.mp hk2 with hk | rfl
        · rcases Nat.lt_or_ge k off with hk3 | hk3
          · exact mem_insertS.mpr (Or.inr (hinv k hk1 hk3))
          · exact mem_insertS.mpr (Or.inr (hc4 k hk3 hk))
        · exact mem_insertS.mpr (Or.inl rfl)

/-- C2: `allocate_ips` equals its Reserve-then-Fill specification — the
gateway is pre-reserved, declared services present in the previous mapping
carry their IP verbatim, and every remaining declared service, in order,
receives the lowest address from `172.28.0.2` upward not already used
(despite the code's rolling `next_offset`) — and on previous
`{a ↦ .2, b ↦ .3, c ↦ .4}` with declared `[a, c, d]` it yields
`a = .2, c = .4, d = .3`. -/
theorem claim_C2_allocate_ips :
    (∀ (services : List String) (existing : Option (List (String × Nat))),
      allocate_ips services existing = allocate_ips_spec services existing) ∧
    (allocate_ips ["a", "c", "d"]
        (some [("a", ipv4 172 28 0 2), ("b", ipv4 172 28 0 3), ("c", ipv4 172 28 0 4)])).map
        (fun m => (lookupA m "a", lookupA m "c", lookupA m "d")) =
      some (some (ipv4 172 28 0 2), some (ipv4 172 28 0 4), some (ipv4 172 28 0 3)) := by
  constructor
  · intro services existing
    unfold allocate_ips allocate_ips_spec
    exact fillPhase_eq_specFill services _ _ 2 (by omega) (by omega)
      (fun k hk1 hk2 => absurd hk2 (by omega))
  · decide

/-! ## Allocation invariant lemmas -/

theorem lookupA_insertA_self {α β : Type} [DecidableEq α] (m : List (α × β)) (k : α) (v : β) :
    lookupA (insertA m k v) k = some v := by
  induction m with
  | nil => simp [insertA, lookupA]
  | cons kv rest ih =>
    obtain ⟨k0, v0⟩ := kv
    unfold insertA
    by_cases h : k0 = k
    · simp [h, lookupA]
    · simp [h, lookupA, ih]

theorem lookupA_insertA_ne {α β : Type} [DecidableEq α] (m : List (α × β)) (k n : α) (v : β)
    (h : k ≠ n) : lookupA (insertA m k v) n = lookupA m n := by
  induction m with
  | nil => simp [insertA, lookupA, h]
  | cons kv rest ih =>
    obtain ⟨k0, v0⟩ := kv
    unfold insertA
    by_cases h0 : k0 = k
    · subst h0
      simp [lookupA, h]
    · have hnk : ¬n = k := fun he => h he.symm
      by_cases h1 : k0 = n
      · simp [lookupA, h0, h1, hnk]
      · simp [lookupA, h0, h1, ih]

theorem reservePhase_preserve (existing : List (String × Nat)) (services : List String) :
    ∀ (assigned : List (String × Nat)) (used : List Nat) (n : String) (ip : Nat),
      lookupA assigned n = some ip → lookupA existing n = some ip →
      lookupA (reservePhase existing services assigned used).1 n = some ip := by
  induction services with
  | nil => intro a u n ip ha _; exact ha
  | cons s rest ih =>
    intro a u n ip ha he
    unfold reservePhase
    cases hx : lookupA existing s with
    | none => exact ih a u n ip ha he
    | some ip2 =>
      by_cases hsn : s = n
      · have hip : ip2 = ip := by
          rw [hsn] at hx
          exact Option.some_inj.mp (hx.symm.trans he)
        apply ih (insertA a s ip2) (insertS u ip2) n ip ?_ he
        rw [hip, hsn]
        exact lookupA_insertA_self a n ip
      · apply ih (insertA a s ip2) (insertS u ip2) n ip ?_ he
        rw [lookupA_insertA_ne a s n ip2 hsn]
        exact ha

theorem reservePhase_lookup (existing : List (String × Nat)) (services : List String) :
    ∀ (assigned : List (String × Nat)) (used : List Nat) (n : String) (ip : Nat),
      n ∈ services → lookupA existing n = some ip →
      lookupA (reservePhase existing services assigned used).1 n = some ip := by
  induction services with
  | nil => intro a u n ip hmem _; exact absurd hmem (List.not_mem_nil n)
  | cons s rest ih =>
    intro a u n ip hmem he
    unfold reservePhase
    rcases List.mem_cons.mp hmem with rfl | hr
    · rw [he]
      exact reservePhase_preserve existing rest _ _ n ip (lookupA_insertA_self a n ip) he
    · cases hx : lookupA existing s with
      | none => exact ih a u n ip hr he
      | some ip2 => exact ih _ _ n ip hr he

theorem reservePhase_inv (existing : List (String × Nat)) (services : List String) :
    ∀ (assigned : List (String × Nat)) (used : List Nat),
      (∀ n ip, lookupA assigned n = some ip → lookupA existing n = some ip) →
      (∀ n ip, lookupA assigned n = some ip → ip ∈ used) →
      (∀ x, x ∈ used → x ∈ (reservePhase existing services assigned used).2) ∧
      (∀ n ip, lookupA (reservePhase existing services assigned used).1 n = some ip →
        lookupA existing n = some ip) ∧
      (∀ n ip, lookupA (reservePhase existing services assigned used).1 n = some ip →
        ip ∈ (reservePhase existing services assigned used).2) := by
  induction services with
  | nil =>
    intro a u hsub hval
    exact ⟨fun x hx => hx, hsub, hval⟩
  | cons s rest ih =>
    intro a u hsub hval
    unfold reservePhase
    cases hx : lookupA existing s with
    | none => exact ih a u hsub hval
    | some ip2 =>
      have hsub2 : ∀ n ip, lookupA (insertA a s ip2) n = some ip →
          lookupA existing n = some ip := by
        intro n ip h
        by_cases hsn : s = n
        · rw [← hsn] at h ⊢
          rw [lookupA_insertA_self] at h
          rw [hx, h]
        · rw [lookupA_insertA_ne a s n ip2 hsn] at h
          exact hsub n ip h
      have hval2 : ∀ n ip, lookupA (insertA a s ip2) n = some ip → ip ∈ insertS u ip2 := by
        intro n ip h
        by_cases hsn : s = n
        · rw [← hsn, lookupA_insertA_self] at h
          exact mem_insertS.mpr (Or.inl (Option.some_inj.mp h).symm)
        · rw [lookupA_insertA_ne a s n ip2 hsn] at h
          exact mem_insertS.mpr (Or.inr (hval n ip h))
      have hih := ih (insertA a s ip2) (insertS u ip2) hsub2 hval2
      exact ⟨fun x hx2 => hih.1 x (mem_insertS.mpr (Or.inr hx2)), hih.2.1, hih.2.2⟩

theorem find_next_ip_char (used : List Nat) (off : Nat) (pr : Nat × Nat)
    (hf : find_next_ip used off = some pr) :
    ∃ c, pr = (base_ip + c, c + 1) ∧ off ≤ c ∧ c < 65534 ∧ (base_ip + c) ∉ used := by
  have hcorr := fillOne_lowestFree_corr used (65535 - off) off (65534 - off)
    (by omega) (by omega)
  rcases hcorr with ⟨hfa, _⟩ | ⟨c, hd1, hd2, hd3, _, hfa, _⟩
  · rw [show find_next_ip used off = fillOne used off (65535 - off) from rfl, hfa] at hf
    exact absurd hf (by simp)
  · rw [show find_next_ip used off = fillOne used off (65535 - off) from rfl, hfa] at hf
    exact ⟨c, (Option.some_inj.mp hf).symm, hd1, hd2, hd3⟩

theorem fillPhase_inv (services : List String) :
    ∀ (assigned : List (String × Nat)) (used : List Nat) (off : Nat)
      (result : List (String × Nat)),
      fillPhase services assigned used off = some result →
      2 ≤ off →
      (∀ n ip, lookupA assigned n = some ip → ip ∈ used) →
      (∀ n1 n2 ip, lookupA assigned n1 = some ip → lookupA assigned n2 = some ip → n1 = n2) →
      (∀ n, lookupA assigned n ≠ some gateway_ip) →
      (∀ n1 n2 ip, lookupA result n1 = some ip → lookupA result n2 = some ip → n1 = n2) ∧
      (∀ n, lookupA result n ≠ some gateway_ip) ∧
      (∀ n ip, lookupA assigned n = some ip → lookupA result n = some ip) := by
  induction services with
  | nil =>
    intro a u off result hres _ _ hinj hgw
    have ha : a = result := Option.some_inj.mp hres
    subst ha
    exact ⟨hinj, hgw, fun n ip h => h⟩
  | cons s rest ih =>
    intro a u off result hres h2 hval hinj hgw
    by_cases hs : (lookupA a s).isSome
    · simp only [fillPhase, if_pos hs] at hres
      exact ih a u off result hres h2 hval hinj hgw
    · simp only [fillPhase, if_neg hs] at hres
      cases hf : find_next_ip u off with
      | none => rw [hf] at hres; exact absurd hres (by simp)
      | some pr =>
        rw [hf] at hres
        obtain ⟨c, hpr, hoffc, hc65, hfree⟩ := find_next_ip_char u off pr hf
        subst hpr
        have hgwbase : gateway_ip = base_ip + 1 := rfl
        have hval2 : ∀ n ip0, lookupA (insertA a s (base_ip + c)) n = some ip0 →
            ip0 ∈ insertS u (base_ip + c) := by
          intro n ip0 h
          by_cases hsn : s = n
          · rw [← hsn, lookupA_insertA_self] at h
            exact mem_insertS.mpr (Or.inl (Option.some_inj.mp h).symm)
          · rw [lookupA_insertA_ne a s n (base_ip + c) hsn] at h
            exact mem_insertS.mpr (Or.inr (hval n ip0 h))
        have hinj2 : ∀ n1 n2 ip0, lookupA (insertA a s (base_ip + c)) n1 = some ip0 →
            lookupA (insertA a s (base_ip + c)) n2 = some ip0 → n1 = n2 := by
          intro n1 n2 ip0 hA hB
          by_cases e1 : s = n1 <;> by_cases e2 : s = n2
          · exact e1.symm.trans e2
          · rw [← e1, lookupA_insertA_self] at hA
            rw [lookupA_insertA_ne a s n2 (base_ip + c) e2] at hB
            have : ip0 = base_ip + c := (Option.some_inj.mp hA).symm
            subst this
            exact absurd (hval n2 (base_ip + c) hB) hfree
          · rw [← e2, lookupA_insertA_self] at hB
            rw [lookupA_insertA_ne a s n1 (base_ip + c) e1] at hA
            have : ip0 = base_ip + c := (Option.some_inj.mp hB).symm
            subst this
            exact absurd (hval n1 (base_ip + c) hA) hfree
          · rw [lookupA_insertA_ne a s n1 (base_ip + c) e1] at hA
            rw [lookupA_insertA_ne a s n2 (base_ip + c) e2] at hB
            exact hinj n1 n2 ip0 hA hB
        have hgw2 : ∀ n, lookupA (insertA a s (base_ip + c)) n ≠ some gateway_ip := by
          intro n h
          by_cases hsn : s = n
          · rw [← hsn, lookupA_insertA_self] at h
            have : base_ip + c = gateway_ip := Option.some_inj.mp h
            rw [hgwbase] at this
            omega
          · rw [lookupA_insertA_ne a s n (base_ip + c) hsn] at h
            exact hgw n h
        have hihres := ih (insertA a s (base_ip + c)) (insertS u (base_ip + c)) (c + 1) result
          hres (by omega) hval2 hinj2 hgw2
        refine ⟨hihres.1, hihres.2.1, ?_⟩
        intro n ip0 h
        apply hihres.2.2
        have hsn : s ≠ n := by
          intro he
          rw [he] at hs
          rw [h] at hs
          exact hs (by simp)
        rw [lookupA_insertA_ne a s n (base_ip + c) hsn]
        exact h

/-- C9: for injective, gateway-free previous reservations (an
`IPReservation` never contains the gateway), a successful allocation is
injective across all services, never assigns the gateway, and keeps the
previous IP of every declared service present in the previous mapping —
IP stability across reload. -/
theorem claim_C9_ip_invariants :
    ∀ (services : List String) (existing : List (String × Nat)) (result : List (String × Nat)),
      (∀ n1 n2 ip, lookupA existing n1 = some ip → lookupA existing n2 = some ip → n1 = n2) →
      (∀ n, lookupA existing n ≠ some gateway_ip) →
      allocate_ips services (some existing) = some result →
      (∀ n1 n2 ip, lookupA result n1 = some ip → lookupA result n2 = some ip → n1 = n2) ∧
      (∀ n, lookupA result n ≠ some gateway_ip) ∧
      (∀ n ip, n ∈ services → lookupA existing n = some ip → lookupA result n = some ip) := by
  intro services existing result hinj hgw hres
  have hres2 : fillPhase services
      (reservePhase existing services [] (insertS [] gateway_ip)).1
      (reservePhase existing services [] (insertS [] gateway_ip)).2 2 = some result := hres
  have hrp := reservePhase_inv existing services [] (insertS [] gateway_ip)
    (fun n ip h => by simp [lookupA] at h) (fun n ip h => by simp [lookupA] at h)
  have hinj1 : ∀ n1 n2 ip,
      lookupA (reservePhase existing services [] (insertS [] gateway_ip)).1 n1 = some ip →
      lookupA (reservePhase existing services [] (insertS [] gateway_ip)).1 n2 = some ip →
      n1 = n2 :=
    fun n1 n2 ip h1 h2 => hinj n1 n2 ip (hrp.2.1 n1 ip h1) (hrp.2.1 n2 ip h2)
  have hgw1 : ∀ n,
      lookupA (reservePhase existing services [] (insertS [] gateway_ip)).1 n ≠
        some gateway_ip :=
    fun n h => hgw n (hrp.2.1 n gateway_ip h)
  have hfill := fillPhase_inv services
    (reservePhase existing services [] (insertS [] gateway_ip)).1
    (reservePhase existing services [] (insertS [] gateway_ip)).2 2 result hres2
    (by omega) hrp.2.2 hinj1 hgw1
  refine ⟨hfill.1, hfill.2.1, ?_⟩
  intro n ip hn he
  exact hfill.2.2 n ip
    (reservePhase_lookup existing services [] (insertS [] gateway_ip) n ip hn he)

/-- C9 witness: the S2 reload scenario; the surviving service `a` keeps
its address. -/
theorem claim_C9_witness :
    allocate_ips ["a", "c", "d"]
        (some [("a", ipv4 172 28 0 2), ("b", ipv4 172 28 0 3), ("c", ipv4 172 28 0 4)]) =
      some [("a", ipv4 172 28 0 2), ("c", ipv4 172 28 0 4), ("d", ipv4 172 28 0 3)] ∧
      lookupA [("a", ipv4 172 28 0 2), ("c", ipv4 172 28 0 4), ("d", ipv4 172 28 0 3)] "a" =
        some (ipv4 172 28 0 2) := by
  refine ⟨by decide, ?_⟩
  exact (claim_C9_ip_invariants ["a", "c", "d"]
    [("a", ipv4 172 28 0 2), ("b", ipv4 172 28 0 3), ("c", ipv4 172 28 0 4)]
    [("a", ipv4 172 28 0 2), ("c", ipv4 172 28 0 4), ("d", ipv4 172 28 0 3)]
    (by
      intro n1 n2 ip h1 h2
      simp only [lookupA] at h1 h2
      split_ifs at h1 h2 <;> (try simp_all [ipv4]) <;> omega)
    (by
      intro n h
      simp only [lookupA] at h
      split_ifs at h <;> simp_all [ipv4, gateway_ip])
    (by decide)).2.2 "a" (ipv4 172 28 0 2) (by decide) (by decide)

/-! ## Router construction lemmas -/

theorem mem_insertRouteSorted (r x : HostRoute) (l : List HostRoute) :
    x ∈ insertRouteSorted r l ↔ x = r ∨ x ∈ l := by
  induction l with
  | nil => simp [insertRouteSorted]
  | cons y ys ih =>
    unfold insertRouteSorted
    split
    · simp [List.mem_cons]
    · simp only [List.mem_cons, ih]
      tauto

theorem mem_sortRoutesDesc (x : HostRoute) (rs : List HostRoute) :
    x ∈ sortRoutesDesc rs ↔ x ∈ rs := by
  unfold sortRoutesDesc
  induction rs with
  | nil => simp
  | cons y ys ih =>
    simp only [List.foldr_cons, mem_insertRouteSorted, ih, List.mem_cons]

theorem lookupA_sortRouter (router : List (List Char × List HostRoute)) (h : List Char) :
    lookupA (sortRouter router) h = (lookupA router h).map sortRoutesDesc := by
  induction router with
  | nil => rfl
  | cons e rest ih =>
    obtain ⟨h0, rs⟩ := e
    by_cases he : h0 = h
    · simp [sortRouter, lookupA, he]
    · simpa [sortRouter, lookupA, he] using ih

theorem pushRoute_lookup_mem (router : List (List Char × List HostRoute)) (h : List Char)
    (r : HostRoute) (h2 : List Char) (routes : List HostRoute) (x : HostRoute)
    (hl : lookupA (pushRoute router h r) h2 = some routes) (hx : x ∈ routes) :
    (∃ rs0, lookupA router h2 = some rs0 ∧ x ∈ rs0) ∨ x = r := by
  induction router with
  | nil =>
    by_cases he : h = h2
    · simp only [pushRoute, lookupA, if_pos he] at hl
      right
      have hr : routes = [r] := (Option.some_inj.mp hl).symm
      subst hr
      simpa using hx
    · simp only [pushRoute, lookupA, if_neg he] at hl
      exact absurd hl (by simp)
  | cons e rest ih =>
    obtain ⟨h0, rs0⟩ := e
    by_cases he : h0 = h
    · simp only [pushRoute, if_pos he] at hl
      by_cases he2 : h0 = h2
      · simp only [lookupA, if_pos he2] at hl
        have hr : routes = rs0 ++ [r] := (Option.some_inj.mp hl).symm
        subst hr
        rcases List.mem_append.mp hx with hx1 | hx1
        · left
          exact ⟨rs0, by simp [lookupA, he2], hx1⟩
        · right
          simpa using hx1
      · simp only [lookupA, if_neg he2] at hl
        left
        refine ⟨routes, ?_, hx⟩
        simp only [lookupA, if_neg he2]
        exact hl
    · simp only [pushRoute, if_neg he] at hl
      by_cases he2 : h0 = h2
      · simp only [lookupA, if_pos he2] at hl
        left
        refine ⟨rs0, by simp [lookupA, he2], ?_⟩
        rw [Option.some_inj.mp hl]
        exact hx
      · simp only [lookupA, if_neg he2] at hl
        rcases ih hl with ⟨rs1, hr1, hx1⟩ | hxr
        · left
          refine ⟨rs1, ?_, hx1⟩
          simp only [lookupA, if_neg he2]
          exact hr1
        · right
          exact hxr

theorem buildRouter_inv (full : List ServiceInstanceConfig) :
    ∀ (pending : List ServiceInstanceConfig) (idx : Nat)
      (router0 : List (List Char × List HostRoute)),
      (∀ j, pending.get? j = full.get? (idx + j)) →
      (∀ h2 routes x, lookupA router0 h2 = some routes → x ∈ routes →
        ∃ c, full.get? x.service_index = some c ∧ c.proxy.isSome = true) →
      ∀ h2 routes x, lookupA (buildRouter pending idx router0) h2 = some routes →
        x ∈ routes →
        ∃ c, full.get? x.service_index = some c ∧ c.proxy.isSome = true := by
  intro pending
  induction pending with
  | nil => intro idx r0 _ hr0; exact hr0
  | cons inst rest ih =>
    intro idx r0 hfull hr0 h2 routes x hl hx
    have hshift : ∀ j, rest.get? j = full.get? ((idx + 1) + j) := by
      intro j
      have hj := hfull (j + 1)
      rw [show idx + (j + 1) = (idx + 1) + j by omega] at hj
      simpa using hj
    cases hp : inst.proxy with
    | none =>
      have hl2 : lookupA (buildRouter rest (idx + 1) r0) h2 = some routes := by
        simpa [buildRouter, hp] using hl
      exact ih (idx + 1) r0 hshift hr0 h2 routes x hl2 hx
    | some pc =>
      have hl2 : lookupA (buildRouter rest (idx + 1)
          (pushRoute r0 pc.host ⟨normalize_path pc.path, idx⟩)) h2 = some routes := by
        simpa [buildRouter, hp] using hl
      apply ih (idx + 1) _ hshift ?_ h2 routes x hl2 hx
      intro h3 routes3 x3 hl3 hx3
      rcases pushRoute_lookup_mem r0 pc.host ⟨normalize_path pc.path, idx⟩ h3 routes3 x3
          hl3 hx3 with ⟨rs1, hr1, hx1⟩ | hxr
      · exact hr0 h3 rs1 x3 hr1 hx1
      · refine ⟨inst, ?_, by simp [hp]⟩
        have h0 := hfull 0
        simp only [List.get?_cons_zero, Nat.add_zero] at h0
        rw [hxr]
        exact h0.symm

theorem from_config_route_inv (instances : List ServiceInstanceConfig) :
    ∀ (host : List Char) (routes : List HostRoute) (route : HostRoute),
      lookupA (from_config_router instances) host = some routes → route ∈ routes →
      ∃ c, instances.get? route.service_index = some c ∧ c.proxy.isSome = true := by
  intro host routes route hl hx
  unfold from_config_router at hl
  rw [lookupA_sortRouter] at hl
  cases hb : lookupA (buildRouter instances 0 []) host with
  | none => rw [hb] at hl; exact absurd hl (by simp)
  | some rs =>
    rw [hb] at hl
    have hroutes : routes = sortRoutesDesc rs := (Option.some_inj.mp (by simpa using hl)).symm
    subst hroutes
    have hx2 : route ∈ rs := (mem_sortRoutesDesc route rs).mp hx
    exact buildRouter_inv instances instances 0 [] (fun j => by simp)
      (fun h2 routes3 x3 h _ => by simp [lookupA] at h) host rs route hb hx2

/-- C10: every route stored by `from_config` carries an in-bounds index
into the instance vector whose instance has a proxy configuration, so a
matched route always yields a socket address: `resolve_route` can return
none only when no host or no prefix matched. -/
theorem claim_C10_router_indices :
    ∀ (instances : List ServiceInstanceConfig) (host path : List Char)
      (routes : List HostRoute) (route : HostRoute),
      (lookupA (from_config_router instances) host = some routes → route ∈ routes →
        route.service_index < instances.length ∧
        ∃ c, instances.get? route.service_index = some c ∧ c.proxy.isSome = true) ∧
      (lookupA (from_config_router instances) host = some routes →
        routes.find? (fun rr => routeMatches rr.path (if path = [] then ['/'] else path)) =
          some route →
        (resolve_route instances (from_config_router instances) host path).isSome = true) := by
  intro instances host path routes route
  constructor
  · intro hl hx
    obtain ⟨c, hc, hp⟩ := from_config_route_inv instances host routes route hl hx
    refine ⟨?_, c, hc, hp⟩
    by_contra hlen
    rw [List.get?_eq_none.mpr (by omega)] at hc
    exact absurd hc (by simp)
  · intro hl hfind
    have hx : route ∈ routes := List.mem_of_find?_eq_some hfind
    obtain ⟨c, hc, hp⟩ := from_config_route_inv instances host routes route hl hx
    rcases Option.isSome_iff_exists.mp hp with ⟨ps, hps⟩
    unfold resolve_route
    simp only [hl, hfind, hc]
    simp [ServiceInstanceConfig.get_socket_addr, hps]

/-- C10 witness: a one-service configuration; the root route resolves. -/
theorem claim_C10_witness :
    lookupA (from_config_router [⟨some ⟨"ex.com".toList, none, 8080⟩, ipv4 172 28 0 10⟩])
        ("ex.com".toList) = some [⟨"/".toList, 0⟩] ∧
      (resolve_route [⟨some ⟨"ex.com".toList, none, 8080⟩, ipv4 172 28 0 10⟩]
        (from_config_router [⟨some ⟨"ex.com".toList, none, 8080⟩, ipv4 172 28 0 10⟩])
        ("ex.com".toList) ("/x".toList)).isSome = true := by
  refine ⟨by decide, ?_⟩
  exact (claim_C10_router_indices [⟨some ⟨"ex.com".toList, none, 8080⟩, ipv4 172 28 0 10⟩]
    ("ex.com".toList) ("/x".toList) [⟨"/".toList, 0⟩] ⟨"/".toList, 0⟩).2 (by decide) (by decide)
